import Mathlib

/-!
Verification development for the rslint lexical front end.

The repository ships the lexer's test suite (`rslint_lexer/src/tests.rs`) and
the `NoIrregularWhitespace` lint rule
(`rslint_core/src/groups/errors/no_irregular_whitespace.rs`).  The lexer
implementation itself is not part of the sources, so the tokenizer below is
modelled from the specification (sections 2-4 and 8 of the design document),
anchored on the concrete token sequences demanded by the shipped tests.
Source text is represented as a list of Unicode code points (`List Nat`);
token lengths are counted in UTF-8 bytes, exactly as in the repository.
-/

namespace RslintModel

/-- Token kind vocabulary, following the `rslint_syntax::SyntaxKind` names used
by the shipped tests. -/
inductive SyntaxKind where
  | EOF | WHITESPACE | COMMENT | IDENT | NUMBER | STRING | REGEX | ERROR_TOKEN
  | TEMPLATE_CHUNK | BACKTICK | DOLLARCURLY
  | BANG | PERCENT | AMP | AMP2 | L_PAREN | R_PAREN | STAR | PLUS | COMMA
  | MINUS | DOT | DOT3 | COLON | SEMICOLON | L_ANGLE | R_ANGLE | LTEQ | GTEQ
  | QUESTION | QUESTION2 | QUESTIONDOT | L_BRACK | R_BRACK | CARET | L_CURLY
  | R_CURLY | PIPE | PIPE2 | TILDE | EQ | EQ2 | EQ3 | NEQ | NEQ2 | FAT_ARROW
  | PLUS2 | MINUS2 | STAR2 | PLUSEQ | MINUSEQ | STAREQ | SLASHEQ | PERCENTEQ
  | AMPEQ | PIPEEQ | CARETEQ | STAR2EQ | SHL | SHR | USHR | SHLEQ | SHREQ
  | USHREQ | SLASH
  | AWAIT_KW | BREAK_KW | CASE_KW | CATCH_KW | CLASS_KW | CONST_KW
  | CONTINUE_KW | DEBUGGER_KW | DEFAULT_KW | DELETE_KW | DO_KW | ELSE_KW
  | ENUM_KW | EXPORT_KW | EXTENDS_KW | FINALLY_KW | FOR_KW | FUNCTION_KW
  | IF_KW | IMPORT_KW | IN_KW | INSTANCEOF_KW | NEW_KW | RETURN_KW | SUPER_KW
  | SWITCH_KW | THIS_KW | THROW_KW | TRY_KW | TYPEOF_KW | VAR_KW | VOID_KW
  | WHILE_KW | WITH_KW | YIELD_KW
  deriving DecidableEq, Repr, BEq

/-- A token: kind plus byte length, as in `rslint_lexer::Token`. -/
structure Token where
  kind : SyntaxKind
  len : Nat
  deriving DecidableEq, Repr, BEq

/-- Number of bytes of the UTF-8 encoding of a code point. -/
def utf8Len (c : Nat) : Nat :=
  if c < 0x80 then 1 else if c < 0x800 then 2 else if c < 0x10000 then 3 else 4

/-- Byte length of a text (list of code points). -/
def byteLen (s : List Nat) : Nat := (s.map utf8Len).sum

/-- Code points of a Lean string, the form in which concrete test inputs are
written down. -/
def str (s : String) : List Nat := s.toList.map (fun c => c.toNat)

/-- Modelled from the spec: line terminators (newline, carriage return, line
separator, paragraph separator). -/
def isLineTerm (c : Nat) : Bool :=
  c == 10 || c == 13 || c == 0x2028 || c == 0x2029

/-- Modelled from the spec: the whitespace set of the classifier (section 4.1),
ASCII whitespace plus the Unicode irregular-whitespace set (non-breaking and
mathematical spaces, BOM, Mongolian vowel separator, ogham space, etc.),
matching the byte counts demanded by the `unicode_whitespace` test. -/
def whitespaceList : List Nat :=
  [9, 0x0B, 0x0C, 32, 0x85, 0xA0, 0x1680, 0x180E,
   0x2000, 0x2001, 0x2002, 0x2003, 0x2004, 0x2005, 0x2006, 0x2007,
   0x2008, 0x2009, 0x200A, 0x200B, 0x202F, 0x205F, 0x3000, 0xFEFF]

def isWhitespace (c : Nat) : Bool :=
  isLineTerm c || whitespaceList.contains c

def isDigit (c : Nat) : Bool := 48 ≤ c && c ≤ 57

def isBinDigit (c : Nat) : Bool := c == 48 || c == 49

def isOctDigit (c : Nat) : Bool := 48 ≤ c && c ≤ 55

def isHexDigit (c : Nat) : Bool :=
  isDigit c || (65 ≤ c && c ≤ 70) || (97 ≤ c && c ≤ 102)

def isAsciiAlpha (c : Nat) : Bool :=
  (65 ≤ c && c ≤ 90) || (97 ≤ c && c ≤ 122)

/-- Modelled from the spec: identifier-start characters.  The spec asks for a
Unicode-aware classifier table; the model admits ASCII letters, `_`, `$` and
any non-ASCII code point that is not (irregular) whitespace, which agrees with
the classifier on every code point exercised by the shipped tests. -/
def isIdentStart (c : Nat) : Bool :=
  isAsciiAlpha c || c == 95 || c == 36 ||
    (0x80 ≤ c && !isWhitespace c)

def isIdentContinue (c : Nat) : Bool := isIdentStart c || isDigit c

/-- Length of the longest prefix satisfying `p`. -/
def countWhile (p : Nat → Bool) : List Nat → Nat
  | [] => 0
  | c :: rest => if p c then countWhile p rest + 1 else 0

/-- Value of a hex digit. -/
def hexVal (c : Nat) : Nat :=
  if isDigit c then c - 48 else if 65 ≤ c && c ≤ 70 then c - 55 else c - 87

/-- Decode exactly four leading hex digits, as in a `\uHHHH` escape. -/
def hex4 : List Nat → Option Nat
  | a :: b :: c :: d :: _ =>
    if isHexDigit a && isHexDigit b && isHexDigit c && isHexDigit d then
      some ((((hexVal a * 16 + hexVal b) * 16 + hexVal c) * 16) + hexVal d)
    else none
  | _ => none

/-- Escape-scanning state inside a string literal: ordinary text, an escape
expecting `k` more hex digits, or the inside of a bracketed `\u{...}` form. -/
inductive EscSt where
  | norm
  | hexN (k : Nat)
  | brace
  deriving DecidableEq, Repr

/-- Modelled from the spec (section 4.5, string scanner): scan the body of a
string literal after the opening quote `q`.  Returns the number of code points
consumed (the closing quote included when found) and whether the token is a
valid string: reaching end of input or a line terminator first, or meeting a
malformed `\xHH`/`\uHHHH` escape (wrong digit count, non-hex digit), makes the
whole token an error token.  A malformed escape does not consume the offending
character; scanning continues at it.  The fuel argument only bounds the
recursion and is always supplied amply by the caller. -/
def strTail (q : Nat) : Nat → Bool → EscSt → List Nat → Nat × Bool
  | 0, _, _, _ => (0, false)
  | _ + 1, _, _, [] => (0, false)
  | fuel + 1, v, EscSt.norm, c :: rest =>
    if c == q then (1, v)
    else if isLineTerm c then (0, false)
    else if c == 92 then
      match rest with
      | [] => (1, false)
      | e :: r2 =>
        if e == 120 then
          let p := strTail q fuel v (EscSt.hexN 2) r2
          (2 + p.1, p.2)
        else if e == 117 then
          match r2 with
          | 123 :: r3 =>
            let p := strTail q fuel v EscSt.brace r3
            (3 + p.1, p.2)
          | _ =>
            let p := strTail q fuel v (EscSt.hexN 4) r2
            (2 + p.1, p.2)
        else
          let p := strTail q fuel v EscSt.norm r2
          (2 + p.1, p.2)
    else
      let p := strTail q fuel v EscSt.norm rest
      (1 + p.1, p.2)
  | fuel + 1, v, EscSt.hexN k, c :: rest =>
    if isHexDigit c && decide (0 < k) then
      let st' := if k ≤ 1 then EscSt.norm else EscSt.hexN (k - 1)
      let p := strTail q fuel v st' rest
      (1 + p.1, p.2)
    else
      strTail q fuel false EscSt.norm (c :: rest)
  | fuel + 1, v, EscSt.brace, c :: rest =>
    if isHexDigit c then
      let p := strTail q fuel v EscSt.brace rest
      (1 + p.1, p.2)
    else if c == 125 then
      let p := strTail q fuel v EscSt.norm rest
      (1 + p.1, p.2)
    else
      strTail q fuel false EscSt.norm (c :: rest)

/-- Modelled from the spec (section 4.6, template scanner): length of a
template chunk, stopping before a backtick, a `${`, or end of input; a
backslash escape consumes the escaped character, so an escaped backtick does
not terminate the chunk. -/
def chunkTail : List Nat → Nat
  | [] => 0
  | 96 :: _ => 0
  | 36 :: 123 :: _ => 0
  | 92 :: _ :: xs => 2 + chunkTail xs
  | 92 :: [] => 1
  | _ :: xs => 1 + chunkTail xs

/-- Modelled from the spec (section 4.7, comment scanner): remaining length of
a block comment after the opening `/*`, through the first `*/`, or everything
to end of input when unterminated. -/
def blockTail : List Nat → Nat
  | 42 :: 47 :: _ => 2
  | _ :: xs => 1 + blockTail xs
  | [] => 0

/-- Modelled from the spec (section 4.8, regex scanner): scan a regex body
after the opening `/` up to an unescaped closing `/` (an unescaped `/` inside
a `[...]` character class does not terminate), then trailing alphabetic flag
characters.  Returns consumed count and whether the literal closed. -/
def regexTail (inClass : Bool) : List Nat → Nat × Bool
  | [] => (0, false)
  | c :: rest =>
    if c == 92 then
      match rest with
      | [] => (1, false)
      | _ :: r2 =>
        let p := regexTail inClass r2
        (2 + p.1, p.2)
    else if isLineTerm c then (0, false)
    else if inClass then
      let p := regexTail (!(c == 93)) rest
      (1 + p.1, p.2)
    else if c == 91 then
      let p := regexTail true rest
      (1 + p.1, p.2)
    else if c == 47 then
      (1 + countWhile isAsciiAlpha rest, true)
    else
      let p := regexTail false rest
      (1 + p.1, p.2)

/-- Modelled from the spec (section 4.4): a run of digits in a given base with
`_` digit separators.  Returns the consumed count and whether the run ends in
a dangling separator with no following digit (a malformed literal). -/
def digitsRun (isD : Nat → Bool) : List Nat → Nat × Bool
  | [] => (0, false)
  | c :: rest =>
    if isD c then
      let p := digitsRun isD rest
      (p.1 + 1, p.2)
    else if c == 95 then
      match rest with
      | [] => (1, true)
      | d :: rest2 =>
        if isD d then
          let p := digitsRun isD rest2
          (p.1 + 2, p.2)
        else (1, true)
    else (0, false)

/-- Modelled from the spec (section 4.4): optional exponent part `e`/`E`, an
optional sign, then at least one digit; consumes nothing when no digit
follows. -/
def expScan (l : List Nat) : Nat × Bool :=
  match l with
  | [] => (0, false)
  | e :: r =>
    if e == 101 || e == 69 then
      let signLen : Nat :=
        match r with
        | s :: _ => if s == 43 || s == 45 then 1 else 0
        | [] => 0
      let p := digitsRun isDigit (r.drop signLen)
      if p.1 == 0 then (0, false) else (1 + signLen + p.1, p.2)
    else (0, false)

/-- Modelled from the spec (section 4.4): a decimal literal — integer part,
optional fraction, optional exponent, or a trailing bigint `n` suffix on a
plain integer.  Returns consumed count and the malformed-separator flag. -/
def decScan (l : List Nat) : Nat × Bool :=
  let p1 := digitsRun isDigit l
  if p1.2 then (p1.1, true)
  else
    match l.drop p1.1 with
    | 46 :: r1 =>
      let p2 := digitsRun isDigit r1
      if p2.2 then (p1.1 + 1 + p2.1, true)
      else
        let p3 := expScan (r1.drop p2.1)
        (p1.1 + 1 + p2.1 + p3.1, p3.2)
    | 110 :: _ => (p1.1 + 1, false)
    | l1 =>
      let p3 := expScan l1
      (p1.1 + p3.1, p3.2)

/-- Modelled from the spec (section 4.4): a based literal body after `0b`,
`0o` or `0x`, with an optional bigint `n` suffix. -/
def radixScan (isD : Nat → Bool) (rest : List Nat) : Nat × Bool :=
  let p := digitsRun isD rest
  if p.2 then (2 + p.1, true)
  else
    match rest.drop p.1 with
    | 110 :: _ => (2 + p.1 + 1, false)
    | _ => (2 + p.1, false)

/-- Modelled from the spec (section 4.4, numeric literal scanner): the natural
extent of a numeric literal starting at the head of `l` (a digit, or a dot
followed by a digit), plus the malformed-separator flag. -/
def numScan (l : List Nat) : Nat × Bool :=
  match l with
  | 48 :: b :: rest =>
    if b == 98 || b == 66 then radixScan isBinDigit rest
    else if b == 111 || b == 79 then radixScan isOctDigit rest
    else if b == 120 || b == 88 then radixScan isHexDigit rest
    else decScan l
  | _ => decScan l

/-- Modelled from the spec (section 4.2): the fixed keyword table, matched
against the exact text of an identifier run. -/
def keywords : List (List Nat × SyntaxKind) :=
  [(str "await", .AWAIT_KW), (str "break", .BREAK_KW), (str "case", .CASE_KW),
   (str "catch", .CATCH_KW), (str "class", .CLASS_KW), (str "const", .CONST_KW),
   (str "continue", .CONTINUE_KW), (str "debugger", .DEBUGGER_KW),
   (str "default", .DEFAULT_KW), (str "delete", .DELETE_KW), (str "do", .DO_KW),
   (str "else", .ELSE_KW), (str "enum", .ENUM_KW), (str "export", .EXPORT_KW),
   (str "extends", .EXTENDS_KW), (str "finally", .FINALLY_KW),
   (str "for", .FOR_KW), (str "function", .FUNCTION_KW), (str "if", .IF_KW),
   (str "import", .IMPORT_KW), (str "in", .IN_KW),
   (str "instanceof", .INSTANCEOF_KW), (str "new", .NEW_KW),
   (str "return", .RETURN_KW), (str "super", .SUPER_KW),
   (str "switch", .SWITCH_KW), (str "this", .THIS_KW), (str "throw", .THROW_KW),
   (str "try", .TRY_KW), (str "typeof", .TYPEOF_KW), (str "var", .VAR_KW),
   (str "void", .VOID_KW), (str "while", .WHILE_KW), (str "with", .WITH_KW),
   (str "yield", .YIELD_KW)]

def keywordKind (text : List Nat) : SyntaxKind :=
  match List.lookup text keywords with
  | some k => k
  | none => .IDENT

/-- Modelled from the spec (section 4.3): the fixed table of multi-character
operators, four characters long. -/
def punct4 : List (List Nat × SyntaxKind) := [(str ">>>=", .USHREQ)]

/-- Modelled from the spec (section 4.3): three-character operators. -/
def punct3 : List (List Nat × SyntaxKind) :=
  [(str "...", .DOT3), (str "===", .EQ3), (str "!==", .NEQ2),
   (str "**=", .STAR2EQ), (str "<<=", .SHLEQ), (str ">>=", .SHREQ),
   (str ">>>", .USHR)]

/-- Modelled from the spec (section 4.3): two-character operators; the table
contains `&&`, `||` and `<=` but no `^^`. -/
def punct2 : List (List Nat × SyntaxKind) :=
  [(str "&&", .AMP2), (str "||", .PIPE2), (str "==", .EQ2), (str "!=", .NEQ),
   (str "<=", .LTEQ), (str ">=", .GTEQ), (str "+=", .PLUSEQ),
   (str "-=", .MINUSEQ), (str "*=", .STAREQ), (str "%=", .PERCENTEQ),
   (str "&=", .AMPEQ), (str "|=", .PIPEEQ), (str "^=", .CARETEQ),
   (str "=>", .FAT_ARROW), (str "++", .PLUS2), (str "--", .MINUS2),
   (str "**", .STAR2), (str "<<", .SHL), (str ">>", .SHR),
   (str "??", .QUESTION2), (str "?.", .QUESTIONDOT)]

/-- Modelled from the spec (section 4.3): single-character punctuators. -/
def punct1 : List (Nat × SyntaxKind) :=
  [(33, .BANG), (37, .PERCENT), (38, .AMP), (40, .L_PAREN), (41, .R_PAREN),
   (42, .STAR), (43, .PLUS), (44, .COMMA), (45, .MINUS), (46, .DOT),
   (58, .COLON), (59, .SEMICOLON), (60, .L_ANGLE), (61, .EQ), (62, .R_ANGLE),
   (63, .QUESTION), (91, .L_BRACK), (93, .R_BRACK), (94, .CARET),
   (123, .L_CURLY), (125, .R_CURLY), (124, .PIPE), (126, .TILDE)]

/-- Modelled from the spec (section 4.3): greedy longest-match against the
operator table — longest candidates first, falling back to single-character
tokens only when no multi-character operator matches. -/
def punctMatch (l : List Nat) : Option (SyntaxKind × Nat) :=
  match List.lookup (l.take 4) punct4 with
  | some k => some (k, 4)
  | none =>
    match List.lookup (l.take 3) punct3 with
    | some k => some (k, 3)
    | none =>
      match List.lookup (l.take 2) punct2 with
      | some k => some (k, 2)
      | none =>
        match l with
        | c :: _ =>
          match List.lookup c punct1 with
          | some k => some (k, 1)
          | none => none
        | [] => none

/-- Template-literal scanning mode: inside a template chunk, or inside a
`${ }` interpolation with its brace-nesting depth. -/
inductive Mode where
  | tmpl
  | interp (depth : Nat)
  deriving DecidableEq, Repr

/-- Modelled from the spec (section 3, LexerState): the transient scanning
context — the stack of template modes and the kind of the most recently
emitted non-trivia token. -/
structure LexState where
  modes : List Mode := []
  prev : Option SyntaxKind := none
  deriving DecidableEq, Repr

def initState : LexState := {}

/-- Modelled from the spec (section 4.8): token kinds indicating a
just-completed expression, after which a `/` is a division operator. -/
def exprClosers : List SyntaxKind :=
  [.IDENT, .NUMBER, .STRING, .R_PAREN, .R_BRACK, .THIS_KW, .SUPER_KW]

/-- Modelled from the spec (section 4.2): an identifier run with keyword
lookup on its exact text. -/
def identToken (st : LexState) (c : Nat) (rest : List Nat) :
    SyntaxKind × Nat × LexState :=
  let n := countWhile isIdentContinue rest
  (keywordKind (c :: rest.take n), n, st)

/-- Modelled from the spec (section 4.4): dispatch for a numeric literal.
After the literal's natural extent: a dangling separator makes the literal an
error token by itself; a directly following identifier character extends a
single error span through the contiguous identifier-like run; a directly
following `\uHHHH` escape is decoded — merging into one error token when it
resolves to an identifier character, otherwise closing the number cleanly. -/
def numToken (st : LexState) (c : Nat) (rest : List Nat) :
    SyntaxKind × Nat × LexState :=
  let p := numScan (c :: rest)
  if p.2 then (.ERROR_TOKEN, p.1 - 1, st)
  else
    match (c :: rest).drop p.1 with
    | 92 :: 117 :: r2 =>
      match hex4 r2 with
      | some cp =>
        if isIdentContinue cp then
          (.ERROR_TOKEN, p.1 + 6 + countWhile isIdentContinue (r2.drop 4) - 1, st)
        else (.NUMBER, p.1 - 1, st)
      | none => (.NUMBER, p.1 - 1, st)
    | d :: ds =>
      if isIdentContinue d then
        (.ERROR_TOKEN, p.1 + 1 + countWhile isIdentContinue ds - 1, st)
      else (.NUMBER, p.1 - 1, st)
    | [] => (.NUMBER, p.1 - 1, st)

/-- Modelled from the spec (section 4.4): a `\` outside any literal.  A valid
`\uHHHH` escape resolving to an identifier-start character begins an
identifier; one resolving to a non-identifier character is an isolated error
token covering exactly the escape; anything else is a short error token. -/
def backslashToken (st : LexState) (rest : List Nat) :
    SyntaxKind × Nat × LexState :=
  match rest with
  | 117 :: r2 =>
    match hex4 r2 with
    | some cp =>
      if isIdentStart cp then
        (.IDENT, 5 + countWhile isIdentContinue (r2.drop 4), st)
      else (.ERROR_TOKEN, 5, st)
    | none => (.ERROR_TOKEN, 1, st)
  | _ => (.ERROR_TOKEN, 0, st)

/-- Modelled from the spec (sections 4.7 and 4.8): dispatch at a `/` — a line
or block comment when followed by `/` or `*`; otherwise a division operator
when the previous non-trivia token closes an expression, else a regex
literal. -/
def stepSlash (st : LexState) (rest : List Nat) : SyntaxKind × Nat × LexState :=
  match rest with
  | 47 :: r2 => (.COMMENT, 1 + countWhile (fun x => !isLineTerm x) r2, st)
  | 42 :: r2 => (.COMMENT, 1 + blockTail r2, st)
  | _ =>
    let isDiv : Bool :=
      match st.prev with
      | some k => exprClosers.contains k
      | none => false
    if isDiv then
      match rest with
      | 61 :: _ => (.SLASHEQ, 1, st)
      | _ => (.SLASH, 0, st)
    else
      let p := regexTail false rest
      (if p.2 then .REGEX else .ERROR_TOKEN, p.1, st)

/-- Modelled from the spec (section 4.6): dispatch while the lexer is in
template-chunk mode — a closing backtick pops the mode, `${` enters an
interpolation, anything else starts a template chunk. -/
def stepTemplate (st : LexState) (ms : List Mode) (c : Nat) (rest : List Nat) :
    SyntaxKind × Nat × LexState :=
  if c == 96 then (.BACKTICK, 0, { st with modes := ms })
  else if c == 36 && rest.head? == some 123 then
    (.DOLLARCURLY, 1, { st with modes := Mode.interp 0 :: st.modes })
  else if c == 92 then
    match rest with
    | [] => (.TEMPLATE_CHUNK, 0, st)
    | _ :: r2 => (.TEMPLATE_CHUNK, 1 + chunkTail r2, st)
  else (.TEMPLATE_CHUNK, chunkTail rest, st)

/-- Modelled from the spec (sections 2 and 4): the main dispatch on the
current character, for normal scanning (top level or inside a template
interpolation, where brace depth is tracked).  Returns the token kind, the
number of code points consumed beyond the current character, and the updated
state. -/
def stepMain (st : LexState) (c : Nat) (rest : List Nat) :
    SyntaxKind × Nat × LexState :=
  if c == 123 then
    match st.modes with
    | Mode.interp d :: ms =>
      (.L_CURLY, 0, { st with modes := Mode.interp (d + 1) :: ms })
    | _ => (.L_CURLY, 0, st)
  else if c == 125 then
    match st.modes with
    | Mode.interp 0 :: ms => (.R_CURLY, 0, { st with modes := ms })
    | Mode.interp (d + 1) :: ms =>
      (.R_CURLY, 0, { st with modes := Mode.interp d :: ms })
    | _ => (.R_CURLY, 0, st)
  else if isWhitespace c then (.WHITESPACE, countWhile isWhitespace rest, st)
  else if c == 47 then stepSlash st rest
  else if c == 39 || c == 34 then
    let p := strTail c (2 * rest.length + 8) true EscSt.norm rest
    (if p.2 then .STRING else .ERROR_TOKEN, p.1, st)
  else if c == 96 then (.BACKTICK, 0, { st with modes := Mode.tmpl :: st.modes })
  else if isDigit c then numToken st c rest
  else if c == 46 && (match rest with | d :: _ => isDigit d | [] => false) then
    numToken st c rest
  else if isIdentStart c then identToken st c rest
  else if c == 92 then backslashToken st rest
  else
    match punctMatch (c :: rest) with
    | some (k, n) => (k, n - 1, st)
    | none => (.ERROR_TOKEN, 0, st)

/-- Modelled from the spec (section 2, driver): one dispatch — template-chunk
mode when the mode stack says so, otherwise the main dispatch. -/
def step (st : LexState) (c : Nat) (rest : List Nat) :
    SyntaxKind × Nat × LexState :=
  match st.modes with
  | Mode.tmpl :: ms => stepTemplate st ms c rest
  | _ => stepMain st c rest

/-- Trivia does not update the previous-significant-token kind. -/
def updatePrev (st : LexState) (k : SyntaxKind) : LexState :=
  if k == SyntaxKind.WHITESPACE || k == SyntaxKind.COMMENT then st
  else { st with prev := some k }

/-- Modelled from the spec (section 2, driver): repeatedly dispatch the
current character to the appropriate sub-scanner until end of input.  Each
round yields the token kind together with the segment of code points it
covers; the segment always contains at least the current character, so each
dispatch makes progress.  The fuel argument only bounds the recursion and is
always at least the input length at the call sites. -/
def lexChunks : Nat → LexState → List Nat → List (SyntaxKind × List Nat)
  | 0, _, _ => []
  | _ + 1, _, [] => []
  | fuel + 1, st, c :: rest =>
    let r := step st c rest
    let st' := updatePrev r.2.2 r.1
    (r.1, c :: rest.take r.2.1) :: lexChunks fuel st' (rest.drop r.2.1)

/-- The token segments of a full lexing pass over `s`. -/
def lexSegs (s : List Nat) : List (SyntaxKind × List Nat) :=
  lexChunks s.length initState s

/-- Modelled from the spec (sections 2 and 6): the finite token stream of a
source text — one token per dispatched segment, its length the segment's byte
length, terminated by exactly one end-of-file token. -/
def tokenize (s : List Nat) : List Token :=
  ((lexSegs s).map fun p => Token.mk p.1 (byteLen p.2)) ++ [⟨.EOF, 0⟩]

/-- Tokenize a Lean string literal (convenience wrapper for the concrete test
inputs). -/
def lexStr (s : String) : List Token := tokenize (str s)

/-- Modelled from the spec (section 4.9) and fixed by the repository's
`strip_shebang` test: when the buffer begins with `#!`, the cursor is advanced
to the position of the first line terminator, in the classifier's sense
(`isLineTerm`), or to end of input when there is none; the test requires
offset 13 for `"#! /bin/node \n\n"`, i.e. the cursor stops at the line
terminator rather than past it. -/
def stripShebang (s : List Nat) : Nat :=
  match s with
  | 35 :: 33 :: _ => s.findIdx (fun c => isLineTerm c)
  | _ => 0

/-- A full lexing pass including the one-shot shebang pre-pass: tokenization
starts at the post-shebang offset, so the consumed prefix is never re-emitted
as a token. -/
def lexFile (s : List Nat) : List Token := tokenize (s.drop (stripShebang s))

/-- Sum of the byte lengths of a token stream. -/
def sumLens (ts : List Token) : Nat := (ts.map Token.len).sum

theorem utf8Len_pos (c : Nat) : 1 ≤ utf8Len c := by
  unfold utf8Len
  repeat' split
  all_goals decide

theorem byteLen_append (a b : List Nat) :
    byteLen (a ++ b) = byteLen a + byteLen b := by
  simp [byteLen]

theorem byteLen_flatten (L : List (List Nat)) :
    byteLen L.flatten = (L.map byteLen).sum := by
  induction L with
  | nil => rfl
  | cons a L ih => simp [List.flatten_cons, byteLen_append, ih]

theorem byteLen_pos (l : List Nat) (h : l ≠ []) : 1 ≤ byteLen l := by
  cases l with
  | nil => exact absurd rfl h
  | cons c rest =>
    have := utf8Len_pos c
    simp only [byteLen, List.map_cons, List.sum_cons]
    omega

/-- Each dispatch of the driver covers the current character plus whatever the
sub-scanner consumed, so concatenating the covered segments, in order,
restores the input exactly. -/
theorem lexChunks_flatten :
    ∀ (fuel : Nat) (st : LexState) (s : List Nat), s.length ≤ fuel →
      ((lexChunks fuel st s).map Prod.snd).flatten = s := by
  intro fuel
  induction fuel with
  | zero =>
    intro st s h
    have hs : s = [] := List.eq_nil_of_length_eq_zero (Nat.le_zero.mp h)
    subst hs; rfl
  | succ n ih =>
    intro st s h
    cases s with
    | nil => rfl
    | cons c rest =>
      have hr : rest.length ≤ n := by
        simpa [Nat.succ_le_succ_iff] using h
      have hdrop : (rest.drop (step st c rest).2.1).length ≤ n := by
        have := List.length_drop (step st c rest).2.1 rest
        omega
      simp only [lexChunks, List.map_cons, List.flatten_cons]
      rw [ih _ _ hdrop, List.cons_append, List.take_append_drop]

/-- The driver emits at most one token per unit of fuel. -/
theorem lexChunks_length_le :
    ∀ (fuel : Nat) (st : LexState) (s : List Nat),
      (lexChunks fuel st s).length ≤ fuel := by
  intro fuel
  induction fuel with
  | zero => intro st s; simp [lexChunks]
  | succ n ih =>
    intro st s
    cases s with
    | nil => simp [lexChunks]
    | cons c rest =>
      simp only [lexChunks, List.length_cons]
      exact Nat.succ_le_succ (ih _ _)

/-- Every segment a dispatch covers is nonempty: each dispatch consumes at
least the current character. -/
theorem lexChunks_seg_ne :
    ∀ (fuel : Nat) (st : LexState) (s : List Nat) (p : SyntaxKind × List Nat),
      p ∈ lexChunks fuel st s → p.2 ≠ [] := by
  intro fuel
  induction fuel with
  | zero => intro st s p hp; simp [lexChunks] at hp
  | succ n ih =>
    intro st s p hp
    cases s with
    | nil => simp [lexChunks] at hp
    | cons c rest =>
      simp only [lexChunks, List.mem_cons] at hp
      cases hp with
      | inl h => subst h; simp
      | inr h => exact ih _ _ _ h

/-- Helper shared by the losslessness results: the token lengths of a full
pass sum to the byte length of the scanned text. -/
theorem tokenize_sumLens (s : List Nat) : sumLens (tokenize s) = byteLen s := by
  have hf := lexChunks_flatten s.length initState s (Nat.le_refl _)
  have h2 : sumLens (tokenize s) = byteLen (((lexSegs s).map Prod.snd).flatten) := by
    rw [byteLen_flatten, List.map_map]
    simp only [tokenize, sumLens, List.map_append, List.map_map, List.sum_append,
      List.map_cons, List.map_nil, List.sum_cons, List.sum_nil]
    rfl
  rw [h2]
  exact congrArg byteLen hf

/-- C1: for every input, concatenating the source segments covered by the
yielded tokens, in order, reproduces the original input exactly; equivalently
the sum of all token lengths equals the byte length of the input; and the
empty input yields zero content tokens plus only the terminal end-of-file
token. -/
theorem claim_C1_losslessness (s : List Nat) :
    ((lexSegs s).map Prod.snd).flatten = s ∧
    sumLens (tokenize s) = byteLen s ∧
    tokenize [] = [Token.mk SyntaxKind.EOF 0] :=
  ⟨lexChunks_flatten s.length initState s (Nat.le_refl _), tokenize_sumLens s, rfl⟩

/-- C2: lexing any finite input terminates with a finite token sequence — at
most one token per input code point plus the terminal end-of-file token — and
every emitted non-end-of-file token occupies a non-empty byte span, because
every dispatch consumes at least one code point (hence at least one byte). -/
theorem claim_C2_termination (s : List Nat) :
    (tokenize s).length ≤ s.length + 1 ∧
    (tokenize s).getLast? = some (Token.mk SyntaxKind.EOF 0) ∧
    ∀ t ∈ (tokenize s).dropLast, 1 ≤ t.len := by
  refine ⟨?_, ?_, ?_⟩
  · have := lexChunks_length_le s.length initState s
    simp only [tokenize, List.length_append, List.length_map, List.length_cons,
      List.length_nil, lexSegs]
    omega
  · simp [tokenize]
  · intro t ht
    simp only [tokenize, List.dropLast_concat, List.dropLast_append_cons,
      List.dropLast_single, List.append_nil, List.mem_map] at ht
    obtain ⟨p, hp, hpt⟩ := ht
    subst hpt
    exact byteLen_pos _ (lexChunks_seg_ne _ _ _ _ hp)

/-- Witness for C2 at the one-character input `a`: its identifier token has a
positive byte length. -/
theorem claim_C2_termination_witness :
    1 ≤ (Token.mk SyntaxKind.IDENT 1).len :=
  (claim_C2_termination (str "a")).2.2 (Token.mk SyntaxKind.IDENT 1)
    (by rw [show (tokenize (str "a")).dropLast = [Token.mk SyntaxKind.IDENT 1] from
          by decide]
        exact List.mem_singleton_self _)

/-- C3: punctuator matching is greedy, deterministic and maximal against the
fixed operator table: `!%%&()*+,-.:;<=>?[]^{}|~` tokenizes entirely as
single-character punctuators except `<=`, one two-character token, and
`&&&&^^^||` tokenizes as exactly `&&`, `&&`, `^`, `^`, `^`, `||` — never as
single `&` tokens and never as a `^^` token, which does not exist. -/
theorem claim_C3_greedy_punctuators :
    lexStr "!%%&()*+,-.:;<=>?[]^{}|~" =
      [⟨.BANG, 1⟩, ⟨.PERCENT, 1⟩, ⟨.PERCENT, 1⟩, ⟨.AMP, 1⟩, ⟨.L_PAREN, 1⟩,
       ⟨.R_PAREN, 1⟩, ⟨.STAR, 1⟩, ⟨.PLUS, 1⟩, ⟨.COMMA, 1⟩, ⟨.MINUS, 1⟩,
       ⟨.DOT, 1⟩, ⟨.COLON, 1⟩, ⟨.SEMICOLON, 1⟩, ⟨.LTEQ, 2⟩, ⟨.R_ANGLE, 1⟩,
       ⟨.QUESTION, 1⟩, ⟨.L_BRACK, 1⟩, ⟨.R_BRACK, 1⟩, ⟨.CARET, 1⟩,
       ⟨.L_CURLY, 1⟩, ⟨.R_CURLY, 1⟩, ⟨.PIPE, 1⟩, ⟨.TILDE, 1⟩, ⟨.EOF, 0⟩] ∧
    lexStr "&&&&^^^||" =
      [⟨.AMP2, 2⟩, ⟨.AMP2, 2⟩, ⟨.CARET, 1⟩, ⟨.CARET, 1⟩, ⟨.CARET, 1⟩,
       ⟨.PIPE2, 2⟩, ⟨.EOF, 0⟩] ∧
    List.lookup (str "^^") punct2 = none := by
  refine ⟨by decide, by decide, by decide⟩

/-- C4: a malformed escape anywhere in a string literal (wrong hex-digit
count or a non-hex digit in a `\xHH`/`\uHHHH` escape) makes the whole string,
opening quote to closing quote, one single error token even when other escapes
in it are valid: `"abcd \xZ0 \xGH"` (16 bytes) is one error token of length
16, while `"abcd \x00 \xAB"` (16 bytes) is one valid string token of
length 16. -/
theorem claim_C4_escape_contamination :
    byteLen (str "\"abcd \\xZ0 \\xGH\"") = 16 ∧
    lexStr "\"abcd \\xZ0 \\xGH\"" = [⟨.ERROR_TOKEN, 16⟩, ⟨.EOF, 0⟩] ∧
    lexStr "'abcd \\xZ0 \\xGH'" = [⟨.ERROR_TOKEN, 16⟩, ⟨.EOF, 0⟩] ∧
    byteLen (str "\"abcd \\x00 \\xAB\"") = 16 ∧
    lexStr "\"abcd \\x00 \\xAB\"" = [⟨.STRING, 16⟩, ⟨.EOF, 0⟩] ∧
    lexStr "'abcd \\x00 \\xAB'" = [⟨.STRING, 16⟩, ⟨.EOF, 0⟩] := by
  refine ⟨by decide, by decide, by decide, by decide, by decide, by decide⟩

/-- C5: a string literal with no closing quote before end of input becomes an
error token spanning from the opening quote to exactly the last byte consumed,
even when input ends mid-escape: `'abc` has length 4, `'abc\` length 5,
`'abc\x` length 6, `'abc\x4` length 7, `'abc\x45` length 8, `'abc\u` length 6
and `'abc\u20` length 8. -/
theorem claim_C5_unterminated_string_lengths :
    lexStr "'abc" = [⟨.ERROR_TOKEN, 4⟩, ⟨.EOF, 0⟩] ∧
    lexStr "'abc\\" = [⟨.ERROR_TOKEN, 5⟩, ⟨.EOF, 0⟩] ∧
    lexStr "'abc\\x" = [⟨.ERROR_TOKEN, 6⟩, ⟨.EOF, 0⟩] ∧
    lexStr "'abc\\x4" = [⟨.ERROR_TOKEN, 7⟩, ⟨.EOF, 0⟩] ∧
    lexStr "'abc\\x45" = [⟨.ERROR_TOKEN, 8⟩, ⟨.EOF, 0⟩] ∧
    lexStr "'abc\\u" = [⟨.ERROR_TOKEN, 6⟩, ⟨.EOF, 0⟩] ∧
    lexStr "'abc\\u20" = [⟨.ERROR_TOKEN, 8⟩, ⟨.EOF, 0⟩] := by
  refine ⟨by decide, by decide, by decide, by decide, by decide, by decide,
    by decide⟩

/-- C6: digits immediately followed by a `\uXXXX` escape: when the escape
resolves to an identifier character the number, the escape and all further
contiguous identifier characters merge into one error token
(`25\u0046abcdef`, 14 bytes, is one error token of length 14); when it
resolves to a non-identifier character the number closes at its natural
boundary, the escape alone is an isolated error token and scanning resumes
fresh after it (`25\uFEFFb`, 9 bytes, is a number token of length 2, an error
token of length 6 and an identifier token of length 1). -/
theorem claim_C6_number_escape_disambiguation :
    byteLen (str "25\\u0046abcdef") = 14 ∧
    lexStr "25\\u0046abcdef" = [⟨.ERROR_TOKEN, 14⟩, ⟨.EOF, 0⟩] ∧
    byteLen (str "25\\uFEFFb") = 9 ∧
    lexStr "25\\uFEFFb" =
      [⟨.NUMBER, 2⟩, ⟨.ERROR_TOKEN, 6⟩, ⟨.IDENT, 1⟩, ⟨.EOF, 0⟩] := by
  refine ⟨by decide, by decide, by decide, by decide⟩

/-- C8: at a `/` the lexer consults the most recently emitted non-trivia
token kind: `var a = /aa/gim` lexes the slash run as a single regex token of
length 7 (the previous non-trivia token `=` does not close an expression),
while `var a = 5 / 6` lexes the slash as a division operator token of length 1
(the previous non-trivia token is a numeric literal). -/
theorem claim_C8_regex_division :
    lexStr "var a = /aa/gim" =
      [⟨.VAR_KW, 3⟩, ⟨.WHITESPACE, 1⟩, ⟨.IDENT, 1⟩, ⟨.WHITESPACE, 1⟩,
       ⟨.EQ, 1⟩, ⟨.WHITESPACE, 1⟩, ⟨.REGEX, 7⟩, ⟨.EOF, 0⟩] ∧
    lexStr "var a = 5 / 6" =
      [⟨.VAR_KW, 3⟩, ⟨.WHITESPACE, 1⟩, ⟨.IDENT, 1⟩, ⟨.WHITESPACE, 1⟩,
       ⟨.EQ, 1⟩, ⟨.WHITESPACE, 1⟩, ⟨.NUMBER, 1⟩, ⟨.WHITESPACE, 1⟩,
       ⟨.SLASH, 1⟩, ⟨.WHITESPACE, 1⟩, ⟨.NUMBER, 1⟩, ⟨.EOF, 0⟩] := by
  refine ⟨by decide, by decide⟩

/-- Modelled from the spec: the spec sentence describing the shebang stripper
verbatim — the cursor is advanced to just past the first line terminator,
terminator included — to be compared with the behaviour fixed by the
repository's `strip_shebang` test. -/
def stripShebangSpecText (s : List Nat) : Nat :=
  match s with
  | 35 :: 33 :: _ => s.findIdx (fun c => isLineTerm c) + 1
  | _ => 0

/-- C7 counterexample: on `#! /bin/node \n\n` the first line terminator sits
at byte offset 13 and the stripper leaves the cursor exactly there (as the
repository's test demands), not just past it at 14 as the claim's general rule
would require. -/
theorem claim_C7_counterexample :
    stripShebang (str "#! /bin/node \n\n") = 13 ∧
    (str "#! /bin/node \n\n").findIdx (fun c => isLineTerm c) = 13 ∧
    stripShebangSpecText (str "#! /bin/node \n\n") = 14 ∧
    stripShebang (str "#! /bin/node \n\n") ≠
      stripShebangSpecText (str "#! /bin/node \n\n") := by
  refine ⟨by decide, by decide, by decide, by decide⟩

/-- No code point the stripper consumes satisfies the predicate it searches
for: the consumed prefix lies strictly before the first hit. -/
theorem findIdx_take_not (p : Nat → Bool) :
    ∀ l : List Nat, ∀ c ∈ l.take (l.findIdx p), p c = false := by
  intro l
  induction l with
  | nil => intro c hc; simp at hc
  | cons x rest ih =>
    intro c hc
    rw [List.findIdx_cons] at hc
    by_cases hx : p x
    · rw [hx] at hc
      simp at hc
    · rw [Bool.not_eq_true] at hx
      rw [hx, cond_false, List.take_succ_cons, List.mem_cons] at hc
      cases hc with
      | inl h => subst h; exact hx
      | inr h => exact ih c h

/-- The code point at a `findIdx` position, when one exists, satisfies the
searched predicate: the cursor sits exactly on the first hit. -/
theorem findIdx_drop_head (p : Nat → Bool) :
    ∀ l : List Nat, ∀ c, (l.drop (l.findIdx p)).head? = some c → p c = true := by
  intro l
  induction l with
  | nil => intro c hc; simp at hc
  | cons x rest ih =>
    intro c hc
    rw [List.findIdx_cons] at hc
    by_cases hx : p x
    · rw [hx, cond_true, List.drop_zero, List.head?_cons, Option.some.injEq] at hc
      subst hc
      exact hx
    · rw [Bool.not_eq_true] at hx
      rw [hx, cond_false, List.drop_succ_cons] at hc
      exact ih c hc

/-- C7 (amended): for every buffer beginning with `#!` the shebang stripper
advances the cursor to the first line terminator (exclusive; end of input when
there is none): the cursor never passes the end of the buffer, no code point
of the consumed prefix is a line terminator, the code point at the cursor —
when the buffer is not exhausted — is a line terminator, and the consumed
prefix is never re-emitted as a token, the tokens of the full pass covering
exactly the remaining suffix; on `#! /bin/node \n\n` the cursor is left at
byte offset 13. -/
theorem claim_C7_shebang_amended (s : List Nat) (h : s.take 2 = [35, 33]) :
    stripShebang s ≤ s.length ∧
    (∀ c ∈ s.take (stripShebang s), isLineTerm c = false) ∧
    (∀ c, (s.drop (stripShebang s)).head? = some c → isLineTerm c = true) ∧
    sumLens (lexFile s) = byteLen (s.drop (stripShebang s)) ∧
    stripShebang (str "#! /bin/node \n\n") = 13 := by
  have hs : stripShebang s = s.findIdx (fun c => isLineTerm c) := by
    cases s with
    | nil => simp at h
    | cons a t =>
      cases t with
      | nil => simp at h
      | cons b t2 =>
        simp only [List.take, List.cons.injEq] at h
        obtain ⟨rfl, rfl, -⟩ := h
        rfl
  refine ⟨?_, ?_, ?_, tokenize_sumLens _, by decide⟩
  · rw [hs]
    exact List.findIdx_le_length (fun c => isLineTerm c)
  · rw [hs]
    exact findIdx_take_not _ s
  · rw [hs]
    exact findIdx_drop_head _ s

/-- Witness for C7 (amended) at the test input `#! /bin/node \n\n`: the code
point at the cursor (offset 13) is a line terminator. -/
theorem claim_C7_shebang_amended_witness :
    isLineTerm 10 = true :=
  (claim_C7_shebang_amended (str "#! /bin/node \n\n") (by decide)).2.2.1 10
    (by decide)

/-- C10: a well-formed `\uHHHH` escape whose decoded code point equals the
string's own delimiter quote does not terminate the string: `"abcd\u0022a"`
and `'abcd\u0027a'` each lex as one single valid string token of length 13. -/
theorem claim_C10_escape_quote_no_terminate :
    byteLen (str "\"abcd\\u0022a\"") = 13 ∧
    lexStr "\"abcd\\u0022a\"" = [⟨.STRING, 13⟩, ⟨.EOF, 0⟩] ∧
    byteLen (str "'abcd\\u0027a'") = 13 ∧
    lexStr "'abcd\\u0027a'" = [⟨.STRING, 13⟩, ⟨.EOF, 0⟩] := by
  refine ⟨by decide, by decide, by decide, by decide⟩

/-!
The `NoIrregularWhitespace` rule of
`rslint_core/src/groups/errors/no_irregular_whitespace.rs`, translated from
the source.  Source text is again a list of code points; the rule works on
its UTF-8 bytes.
-/

/-- The 24-entry `WHITESPACE_TABLE` of no_irregular_whitespace.rs (code
points only; the display names do not affect the scan). -/
def WHITESPACE_TABLE : List Nat :=
  [0x000B, 0x000C, 0x00A0, 0x0085, 0x1680, 0x180E, 0xfeff,
   0x2000, 0x2001, 0x2002, 0x2003, 0x2004, 0x2005, 0x2006, 0x2007,
   0x2008, 0x2009, 0x200A, 0x200B, 0x2028, 0x2029, 0x202F, 0x205f, 0x3000]

/-- The `FIRST_BYTES` table of no_irregular_whitespace.rs. -/
def FIRST_BYTES : List Nat :=
  [0x0b, 0x0c, 0xA0, 0x85, 0xC2, 0xE1, 0xEF, 0xE2, 0xE3]

/-- UTF-8 encoding of a code point, byte by byte. -/
def utf8Enc (c : Nat) : List Nat :=
  if c < 0x80 then [c]
  else if c < 0x800 then [0xC0 + c / 64, 0x80 + c % 64]
  else if c < 0x10000 then
    [0xE0 + c / 4096, 0x80 + c / 64 % 64, 0x80 + c % 64]
  else
    [0xF0 + c / 262144, 0x80 + c / 4096 % 64, 0x80 + c / 64 % 64, 0x80 + c % 64]

/-- The UTF-8 byte sequence of a text. -/
def utf8Bytes (s : List Nat) : List Nat := (s.map utf8Enc).flatten

/-- `short_circuit_pass`: does any byte of the string occur in
`FIRST_BYTES`? -/
def short_circuit_pass (bytes : List Nat) : Bool :=
  bytes.any fun b => FIRST_BYTES.contains b

/-- `spanned_byte_matches`, with the address arithmetic of the source
rendered as plain index arithmetic: the byte offsets, in order, whose byte
occurs in `FIRST_BYTES`. -/
def spannedFrom (i : Nat) : List Nat → List Nat
  | [] => []
  | b :: rest =>
    if FIRST_BYTES.contains b then i :: spannedFrom (i + 1) rest
    else spannedFrom (i + 1) rest

def spanned_byte_matches (bytes : List Nat) : List Nat := spannedFrom 0 bytes

/-- `string.get(byte_match..)` followed by `chars.next()`: the code point
starting at a byte offset, or `none` when the offset is not on a UTF-8
character boundary. -/
def charAtByte : List Nat → Nat → Option Nat
  | [], _ => none
  | c :: rest, off =>
    if off == 0 then some c
    else if off < utf8Len c then none
    else charAtByte rest (off - utf8Len c)

/-- The `for byte_match in matches` loop of `check_root`: a candidate offset
not on a character boundary is skipped (the `if let Some`); a candidate whose
character is in the table is reported; a candidate whose character is NOT in
the table hits the `?` on the failed `WHITESPACE_TABLE.iter().find(...)`,
which returns from `check_root` and ends the whole scan, keeping only the
occurrences reported so far. -/
def checkRootLoop (s : List Nat) : List Nat → List (Nat × Nat)
  | [] => []
  | m :: ms =>
    match charAtByte s m with
    | none => checkRootLoop s ms
    | some ch =>
      if WHITESPACE_TABLE.contains ch then (m, ch) :: checkRootLoop s ms
      else []

/-- `NoIrregularWhitespace::check_root` as shipped: the sequence of reported
irregular-whitespace occurrences (byte offset and code point), before the
per-token-kind skip flags are applied. -/
def check_root_scan (s : List Nat) : List (Nat × Nat) :=
  if s.isEmpty then []
  else if !short_circuit_pass (utf8Bytes s) then []
  else checkRootLoop s (spanned_byte_matches (utf8Bytes s))

/-- The claim's comparator: a direct per-character scan of the text against
the 24-entry table, reporting every irregular-whitespace occurrence with its
byte offset and code point. -/
def directScanFrom (off : Nat) : List Nat → List (Nat × Nat)
  | [] => []
  | c :: rest =>
    if WHITESPACE_TABLE.contains c then
      (off, c) :: directScanFrom (off + utf8Len c) rest
    else directScanFrom (off + utf8Len c) rest

def direct_scan (s : List Nat) : List (Nat × Nat) := directScanFrom 0 s

/-- C9: the shipped two-stage scan does NOT report the same occurrences as a
direct per-character scan.  On the two-character text U+20AC (euro sign)
followed by U+3000 (ideographic space), the direct scan reports the
ideographic space at byte offset 3, but `check_root` aborts on the first
candidate: the euro sign's lead byte 0xE2 passes the byte filter, its table
lookup fails, and the `?` returns from the function, reporting nothing. -/
theorem claim_C9_two_stage_scan_bug :
    direct_scan [0x20AC, 0x3000] = [(3, 0x3000)] ∧
    check_root_scan [0x20AC, 0x3000] = [] ∧
    check_root_scan [0x20AC, 0x3000] ≠ direct_scan [0x20AC, 0x3000] := by
  refine ⟨by decide, by decide, by decide⟩

/-!
The abort on the failed table lookup is the sole divergence: replacing the
`?` by a skip of the candidate — what the adjacent source comment intends —
makes the two-stage scan agree with the direct per-character scan on every
input.  The remainder of this section proves that equivalence.
-/

/-- `check_root`'s loop with the `?` replaced by a skip of the candidate. -/
def checkRootLoopSkip (s : List Nat) : List Nat → List (Nat × Nat)
  | [] => []
  | m :: ms =>
    match charAtByte s m with
    | none => checkRootLoopSkip s ms
    | some ch =>
      if WHITESPACE_TABLE.contains ch then (m, ch) :: checkRootLoopSkip s ms
      else checkRootLoopSkip s ms

/-- `check_root` with the loop abort repaired. -/
def check_root_scan_fixed (s : List Nat) : List (Nat × Nat) :=
  if s.isEmpty then []
  else if !short_circuit_pass (utf8Bytes s) then []
  else checkRootLoopSkip s (spanned_byte_matches (utf8Bytes s))

theorem utf8Enc_length (c : Nat) : (utf8Enc c).length = utf8Len c := by
  unfold utf8Enc utf8Len
  repeat' split
  all_goals rfl

/-- Every irregular-whitespace code point's UTF-8 lead byte is in
`FIRST_BYTES`. -/
theorem table_lead : ∀ c ∈ WHITESPACE_TABLE,
    FIRST_BYTES.contains ((utf8Enc c).headI) = true := by decide

theorem spannedFrom_mem (l : List Nat) :
    ∀ (i m : Nat), m ∈ spannedFrom i l → i ≤ m ∧ m < i + l.length := by
  induction l with
  | nil => intro i m hm; simp [spannedFrom] at hm
  | cons b rest ih =>
    intro i m hm
    simp only [spannedFrom] at hm
    by_cases hb : FIRST_BYTES.contains b
    · rw [if_pos hb, List.mem_cons] at hm
      cases hm with
      | inl h => subst h; simp
      | inr h => have := ih (i + 1) m h; simp only [List.length_cons]; omega
    · rw [if_neg hb] at hm
      have := ih (i + 1) m hm
      simp only [List.length_cons]; omega

theorem spannedFrom_append (a b : List Nat) :
    ∀ i, spannedFrom i (a ++ b) = spannedFrom i a ++ spannedFrom (i + a.length) b := by
  induction a with
  | nil => intro i; simp [spannedFrom]
  | cons x rest ih =>
    intro i
    simp only [List.cons_append, spannedFrom, List.length_cons, List.append_eq]
    rw [show i + (rest.length + 1) = i + 1 + rest.length by omega]
    by_cases hx : FIRST_BYTES.contains x
    · rw [if_pos hx, if_pos hx, ih, List.cons_append]
    · rw [if_neg hx, if_neg hx, ih]

theorem map_map_add (S : List Nat) (i j : Nat) :
    (S.map (j + ·)).map (i + ·) = S.map ((i + j) + ·) := by
  rw [List.map_map]
  apply List.map_congr_left
  intro a _
  simp only [Function.comp_apply]
  omega

theorem map_map_shiftPair (S : List (Nat × Nat)) (i j : Nat) :
    (S.map (fun p => (j + p.1, p.2))).map (fun p => (i + p.1, p.2)) =
      S.map (fun p => ((i + j) + p.1, p.2)) := by
  rw [List.map_map]
  apply List.map_congr_left
  intro a _
  simp only [Function.comp_apply, Prod.mk.injEq]
  exact ⟨by omega, trivial⟩

theorem spannedFrom_shift (b : List Nat) :
    ∀ i, spannedFrom i b = (spannedFrom 0 b).map (i + ·) := by
  induction b with
  | nil => intro i; rfl
  | cons x rest ih =>
    intro i
    simp only [spannedFrom]
    by_cases hx : FIRST_BYTES.contains x
    · rw [if_pos hx, if_pos hx, ih 1, ih (i + 1), List.map_cons, map_map_add]
      simp
    · rw [if_neg hx, if_neg hx, ih 1, ih (i + 1), map_map_add]

theorem charAtByte_zero (c : Nat) (rest : List Nat) :
    charAtByte (c :: rest) 0 = some c := rfl

theorem charAtByte_inner (c : Nat) (rest : List Nat) (m : Nat)
    (h1 : 0 < m) (h2 : m < utf8Len c) : charAtByte (c :: rest) m = none := by
  simp only [charAtByte]
  rw [if_neg, if_pos h2]
  simp only [beq_iff_eq]
  omega

theorem charAtByte_shift (c : Nat) (rest : List Nat) (off : Nat) :
    charAtByte (c :: rest) (utf8Len c + off) = charAtByte rest off := by
  have h1 := utf8Len_pos c
  simp only [charAtByte]
  rw [if_neg, if_neg]
  · congr 1
    omega
  · omega
  · simp only [beq_iff_eq]
    omega

theorem loopSkip_append (s : List Nat) (ms1 ms2 : List Nat) :
    checkRootLoopSkip s (ms1 ++ ms2) =
      checkRootLoopSkip s ms1 ++ checkRootLoopSkip s ms2 := by
  induction ms1 with
  | nil => rfl
  | cons m ms ih =>
    simp only [List.cons_append, checkRootLoopSkip]
    cases charAtByte s m with
    | none => exact ih
    | some ch =>
      by_cases htab : ch ∈ WHITESPACE_TABLE
      · simp [htab, ih]
      · simp [htab, ih]

theorem loopSkip_shift (c : Nat) (rest : List Nat) (ms : List Nat) :
    checkRootLoopSkip (c :: rest) (ms.map (utf8Len c + ·)) =
      (checkRootLoopSkip rest ms).map (fun p => (utf8Len c + p.1, p.2)) := by
  induction ms with
  | nil => rfl
  | cons m tl ih =>
    simp only [List.map_cons, checkRootLoopSkip, charAtByte_shift]
    cases charAtByte rest m with
    | none => exact ih
    | some ch =>
      by_cases htab : ch ∈ WHITESPACE_TABLE
      · simp [htab, ih]
      · simp [htab, ih]

theorem loopSkip_all_inner (c : Nat) (rest : List Nat) :
    ∀ ms : List Nat, (∀ m ∈ ms, 0 < m ∧ m < utf8Len c) →
      checkRootLoopSkip (c :: rest) ms = [] := by
  intro ms
  induction ms with
  | nil => intro _; rfl
  | cons m tl ih =>
    intro h
    have hm := h m (List.mem_cons_self m tl)
    simp only [checkRootLoopSkip, charAtByte_inner c rest m hm.1 hm.2]
    exact ih fun x hx => h x (List.mem_cons_of_mem m hx)

theorem loopSkip_cons_zero (c : Nat) (rest : List Nat) (ms : List Nat) :
    checkRootLoopSkip (c :: rest) (0 :: ms) =
      (if WHITESPACE_TABLE.contains c then [(0, c)] else []) ++
        checkRootLoopSkip (c :: rest) ms := by
  simp only [checkRootLoopSkip, charAtByte_zero]
  by_cases htab : c ∈ WHITESPACE_TABLE
  · simp [htab]
  · simp [htab]

/-- Within one character's own bytes, the repaired loop reports exactly the
direct scan's verdict at offset zero: the lead byte is a candidate precisely
when needed (every table entry's lead byte is in `FIRST_BYTES`), and offsets
landing on continuation bytes are discarded by the boundary check. -/
theorem loopSkip_local (c : Nat) (rest : List Nat) :
    checkRootLoopSkip (c :: rest) (spannedFrom 0 (utf8Enc c)) =
      if WHITESPACE_TABLE.contains c then [(0, c)] else [] := by
  obtain ⟨b0, inner, henc, hlen⟩ :
      ∃ b0 inner, utf8Enc c = b0 :: inner ∧ inner.length + 1 = utf8Len c := by
    unfold utf8Enc utf8Len
    repeat' split
    all_goals exact ⟨_, _, rfl, rfl⟩
  have hinner : checkRootLoopSkip (c :: rest) (spannedFrom 1 inner) = [] := by
    apply loopSkip_all_inner
    intro m hm
    have := spannedFrom_mem inner 1 m hm
    omega
  rw [henc]
  simp only [spannedFrom]
  by_cases hfb : FIRST_BYTES.contains b0
  · rw [if_pos hfb, loopSkip_cons_zero, hinner, List.append_nil]
  · rw [if_neg hfb, hinner, if_neg]
    intro htab
    have hmem : c ∈ WHITESPACE_TABLE := by
      simpa using htab
    have := table_lead c hmem
    rw [henc] at this
    simp only [List.headI] at this
    exact hfb this

theorem directScanFrom_shift (l : List Nat) :
    ∀ i, directScanFrom i l = (directScanFrom 0 l).map (fun p => (i + p.1, p.2)) := by
  induction l with
  | nil => intro i; rfl
  | cons c rest ih =>
    intro i
    simp only [directScanFrom]
    by_cases htab : WHITESPACE_TABLE.contains c
    · rw [if_pos htab, if_pos htab, List.map_cons, ih (i + utf8Len c),
        ih (0 + utf8Len c), Nat.zero_add, map_map_shiftPair]
      simp
    · rw [if_neg htab, if_neg htab, ih (i + utf8Len c), ih (0 + utf8Len c),
        Nat.zero_add, map_map_shiftPair]

/-- The repaired two-stage loop agrees with the direct per-character scan on
every input. -/
theorem loopSkip_eq_direct (s : List Nat) :
    checkRootLoopSkip s (spanned_byte_matches (utf8Bytes s)) = direct_scan s := by
  induction s with
  | nil => rfl
  | cons c rest ih =>
    have hbytes : utf8Bytes (c :: rest) = utf8Enc c ++ utf8Bytes rest := by
      simp [utf8Bytes]
    rw [spanned_byte_matches, hbytes, spannedFrom_append, loopSkip_append,
      loopSkip_local]
    rw [Nat.zero_add, spannedFrom_shift, utf8Enc_length, loopSkip_shift]
    rw [spanned_byte_matches] at ih
    rw [ih]
    simp only [direct_scan, directScanFrom, Nat.zero_add]
    by_cases htab : WHITESPACE_TABLE.contains c
    · rw [if_pos htab, if_pos htab, directScanFrom_shift rest (utf8Len c),
        List.singleton_append]
    · rw [if_neg htab, if_neg htab, directScanFrom_shift rest (utf8Len c),
        List.nil_append]

/-- When no byte of the input occurs in `FIRST_BYTES`, the input holds no
irregular whitespace at all, so the short-circuit pass is sound. -/
theorem direct_scan_nil_of_no_first_byte (s : List Nat)
    (h : short_circuit_pass (utf8Bytes s) = false) : direct_scan s = [] := by
  induction s with
  | nil => rfl
  | cons c rest ih =>
    have hbytes : utf8Bytes (c :: rest) = utf8Enc c ++ utf8Bytes rest := by
      simp [utf8Bytes]
    rw [hbytes] at h
    simp only [short_circuit_pass, List.any_append, Bool.or_eq_false_iff] at h
    have hrest : direct_scan rest = [] := ih h.2
    rw [direct_scan, directScanFrom, if_neg, directScanFrom_shift,
      ← direct_scan, hrest, List.map_nil]
    intro htab
    have hmem : c ∈ WHITESPACE_TABLE := by
      simpa using htab
    have hlead := table_lead c hmem
    obtain ⟨b0, inner, henc, -⟩ :
        ∃ b0 inner, utf8Enc c = b0 :: inner ∧ inner.length + 1 = utf8Len c := by
      unfold utf8Enc utf8Len
      repeat' split
      all_goals exact ⟨_, _, rfl, rfl⟩
    rw [henc] at hlead
    simp only [List.headI] at hlead
    have := h.1
    rw [henc] at this
    simp only [List.any_cons, Bool.or_eq_false_iff] at this
    rw [this.1] at hlead
    exact Bool.false_ne_true hlead

/-- The full repaired `check_root` equals the direct per-character scan:
the early returns for the empty string and for a byte stream free of
`FIRST_BYTES` candidates never discard an occurrence. -/
theorem check_root_fixed_eq_direct (s : List Nat) :
    check_root_scan_fixed s = direct_scan s := by
  unfold check_root_scan_fixed
  by_cases hemp : s.isEmpty
  · rw [if_pos hemp]
    cases s with
    | nil => rfl
    | cons a t => simp [List.isEmpty] at hemp
  · rw [if_neg hemp]
    by_cases hsc : short_circuit_pass (utf8Bytes s)
    · simp only [hsc, Bool.not_true, Bool.false_eq_true, if_false]
      exact loopSkip_eq_direct s
    · simp only [Bool.not_eq_true] at hsc
      simp only [hsc, Bool.not_false, if_true]
      exact (direct_scan_nil_of_no_first_byte s hsc).symm

end RslintModel
